import Mathlib

/-!
Verification of the voting state engine of the `react-typescript` repository
(`votingReducer` and the derived progress display in `VotingApp`).

The reducer is embedded as a pure Lean function. The only impure ingredient
of the source, `Date.now()` used as a fresh identifier in the `ADD_OPTION`
case, is passed in explicitly as a `now : Nat` parameter.
-/

namespace Voting

/-- One candidate being voted on (source interface `Option`). -/
structure Opt where
  id : Nat
  text : String
  votes : Nat
deriving DecidableEq, Repr

/-- The aggregate state (source interface `VotingState`). -/
structure VotingState where
  options : List Opt
  totalVotes : Nat
deriving DecidableEq, Repr

/-- The action union (source type `VotingAction`). The extra `unknown`
constructor models an action value outside the three documented variants,
handled by the `default` branch of the source `switch`. -/
inductive VotingAction where
  | addOption (payload : String)
  | vote (payload : Nat)
  | reset
  | unknown
deriving DecidableEq, Repr

open VotingAction

/-- Embedding of the source `votingReducer`. `now` stands for the value of
`Date.now()` read in the `ADD_OPTION` case. Note that in the `VOTE` case the
source increments `totalVotes` unconditionally, whether or not any option
matches the payload id; the embedding reproduces that faithfully. -/
def votingReducer (now : Nat) (state : VotingState) (action : VotingAction) : VotingState :=
  match action with
  | addOption text =>
      { state with
        options := state.options ++ [{ id := now, text := text, votes := 0 }] }
  | vote vid =>
      { state with
        options := state.options.map fun o =>
          if o.id = vid then { o with votes := o.votes + 1 } else o,
        totalVotes := state.totalVotes + 1 }
  | reset =>
      { options := state.options.map fun o => { o with votes := 0 },
        totalVotes := 0 }
  | unknown => state

/-- The documented seed state passed to `useReducer` in `VotingApp`. -/
def seedState : VotingState :=
  { options :=
      [ { id := 1, text := "Option A", votes := 0 },
        { id := 2, text := "Option B", votes := 0 } ],
    totalVotes := 0 }

/-- Sum of the `votes` fields of a list of options. -/
def sumVotes (opts : List Opt) : Nat :=
  (opts.map Opt.votes).sum

/-- States reachable from the seed state by sequences of reducer steps. -/
inductive Reachable : VotingState → Prop where
  | seed : Reachable seedState
  | step (now : Nat) (a : VotingAction) {s : VotingState} :
      Reachable s → Reachable (votingReducer now s a)

/-- The `value` attribute of the `<progress>` element rendered for an
option in `VoteOption`. -/
def progressValue (o : Opt) : Nat := o.votes

/-- The `max` attribute of the `<progress>` element rendered in
`VoteOption`: the source writes `context.state.totalVotes || 1`, which on
non-negative numbers yields `1` when `totalVotes` is `0` and `totalVotes`
otherwise. -/
def progressMax (s : VotingState) : Nat :=
  if s.totalVotes = 0 then 1 else s.totalVotes

/-- The display fraction the spec describes: `votes / max(totalVotes, 1)`.
Stated over the rationals so that the division is exact. -/
def specFraction (s : VotingState) (o : Opt) : ℚ :=
  (o.votes : ℚ) / max (s.totalVotes : ℚ) 1

/-- C1: the claimed invariant `totalVotes = sum of votes` does NOT hold for
all reachable states: voting for the non-existent id 999 from the seed state
reaches a state whose vote sum is 0 but whose `totalVotes` is 1, because the
source `VOTE` case increments `totalVotes` unconditionally. -/
theorem claim1_invariant_violated :
    ∃ s : VotingState, Reachable s ∧ sumVotes s.options ≠ s.totalVotes :=
  ⟨votingReducer 0 seedState (.vote 999),
   Reachable.step 0 (.vote 999) Reachable.seed, by decide⟩

/-- C2: voting for the unknown id 999 from the seed state is NOT a no-op:
the options are unchanged but `totalVotes` becomes 1, so the result differs
from the seed state, contradicting the claimed silent no-op. -/
theorem claim2_unknown_vote_not_noop :
    (votingReducer 0 seedState (.vote 999)).options = seedState.options ∧
    (votingReducer 0 seedState (.vote 999)).totalVotes = 1 ∧
    votingReducer 0 seedState (.vote 999) ≠ seedState := by
  refine ⟨by decide, by decide, ?_⟩
  intro h
  exact absurd (congrArg VotingState.totalVotes h) (by decide)

/-- C3: when exactly one option carries the voted id, `Vote` bumps that
option's votes by 1 (the result is the original list with only position `i`
updated) and `totalVotes` by 1; in particular `Vote(1)` on the seed state
gives votes `[1, 0]` and `totalVotes = 1`. -/
theorem claim3_vote_existing (s : VotingState) (vid now i : Nat)
    (hi : i < s.options.length)
    (hmatch : (s.options.get ⟨i, hi⟩).id = vid)
    (huniq : ∀ j (hj : j < s.options.length),
      j ≠ i → (s.options.get ⟨j, hj⟩).id ≠ vid) :
    (votingReducer now s (.vote vid)).options
      = s.options.set i
          { s.options.get ⟨i, hi⟩ with votes := (s.options.get ⟨i, hi⟩).votes + 1 } ∧
    (votingReducer now s (.vote vid)).totalVotes = s.totalVotes + 1 ∧
    (votingReducer now seedState (.vote 1)).options.map Opt.votes = [1, 0] ∧
    (votingReducer now seedState (.vote 1)).totalVotes = 1 := by
  refine ⟨?_, rfl, rfl, rfl⟩
  apply List.ext_getElem
  · simp [votingReducer]
  · intro n h1 h2
    have hn : n < s.options.length := by
      simpa [votingReducer] using h1
    show (s.options.map fun o =>
        if o.id = vid then { o with votes := o.votes + 1 } else o)[n] = _
    rw [List.getElem_map, List.getElem_set]
    by_cases hni : i = n
    · subst hni
      have hid : s.options[i].id = vid := hmatch
      rw [if_pos rfl, if_pos hid]
      rfl
    · have hne : s.options[n].id ≠ vid := huniq n hn (fun h => hni h.symm)
      rw [if_neg hni, if_neg hne]

/-- C3 witness: instantiating at the seed state, voting for id 1 (held only
by the first option) at a concrete `now`. -/
theorem claim3_vote_existing_witness :
    (votingReducer 7 seedState (.vote 1)).options
      = seedState.options.set 0
          { seedState.options.get ⟨0, by decide⟩ with
            votes := (seedState.options.get ⟨0, by decide⟩).votes + 1 } ∧
    (votingReducer 7 seedState (.vote 1)).totalVotes = seedState.totalVotes + 1 ∧
    (votingReducer 7 seedState (.vote 1)).options.map Opt.votes = [1, 0] ∧
    (votingReducer 7 seedState (.vote 1)).totalVotes = 1 :=
  claim3_vote_existing seedState 1 7 0 (by decide) (by decide) (by decide)

/-- C4: `AddOption` keeps every pre-existing option unchanged in its
original position, appends exactly one new option carrying the supplied
text and zero votes as the last element, and leaves `totalVotes`
unchanged. -/
theorem claim4_addOption_appends (s : VotingState) (text : String) (now : Nat) :
    (votingReducer now s (.addOption text)).options.take s.options.length
      = s.options ∧
    (votingReducer now s (.addOption text)).options.getLast?
      = some { id := now, text := text, votes := 0 } ∧
    (votingReducer now s (.addOption text)).options.length
      = s.options.length + 1 ∧
    (votingReducer now s (.addOption text)).totalVotes = s.totalVotes := by
  refine ⟨List.take_left s.options _, List.getLast?_concat s.options, ?_, rfl⟩
  simp [votingReducer]

/-- C5: `Reset` zeroes every option's votes, preserves every option's `id`
and `text`, preserves the number and order of options, and zeroes
`totalVotes`. -/
theorem claim5_reset (s : VotingState) (now : Nat) :
    (votingReducer now s .reset).options.map Opt.id = s.options.map Opt.id ∧
    (votingReducer now s .reset).options.map Opt.text = s.options.map Opt.text ∧
    (votingReducer now s .reset).options.length = s.options.length ∧
    (∀ o ∈ (votingReducer now s .reset).options, o.votes = 0) ∧
    (votingReducer now s .reset).totalVotes = 0 := by
  refine ⟨?_, ?_, by simp [votingReducer], ?_, rfl⟩
  · simp only [votingReducer, List.map_map]
    exact List.map_congr_left fun a _ => rfl
  · simp only [votingReducer, List.map_map]
    exact List.map_congr_left fun a _ => rfl
  · intro o ho
    simp only [votingReducer, List.mem_map] at ho
    obtain ⟨a, -, rfl⟩ := ho
    rfl

/-- C6: `Reset` is idempotent: applying it twice yields the same state as
applying it once, whatever `Date.now()` returns at each step. -/
theorem claim6_reset_idempotent (s : VotingState) (now now' : Nat) :
    votingReducer now' (votingReducer now s .reset) .reset
      = votingReducer now s .reset := by
  simp only [votingReducer, List.map_map]
  congr 1

/-- C7: the transition function is total: for every state and every action,
including an action outside the three documented variants (the `default`
branch, modelled by `unknown`), it returns a `VotingState`; the `default`
branch returns the input state. -/
theorem claim7_total (s : VotingState) (a : VotingAction) (now : Nat) :
    (∃ s' : VotingState, votingReducer now s a = s') ∧
    votingReducer now s .unknown = s :=
  ⟨⟨votingReducer now s a, rfl⟩, rfl⟩

/-- C8: the `<progress>` element's value/max pair denotes the fraction
`votes / max(totalVotes, 1)` for every option in every state, and its
denominator `totalVotes || 1` is never zero. -/
theorem claim8_display_fraction (s : VotingState) (o : Opt) :
    (progressValue o : ℚ) / (progressMax s : ℚ) = specFraction s o ∧
    progressMax s ≠ 0 := by
  constructor
  · unfold progressValue progressMax specFraction
    rcases Nat.eq_zero_or_pos s.totalVotes with h | h
    · simp [h]
    · rw [if_neg (Nat.pos_iff_ne_zero.mp h)]
      congr 1
      rw [max_eq_left]
      exact_mod_cast h
  · unfold progressMax
    split
    · exact one_ne_zero
    · assumption

/-- C9: `AddOption` performs no validation on its text: for every string,
including the empty string, the reducer appends an option carrying that
exact text, and totality (no error signalled) is witnessed by the result
being a plain state value. -/
theorem claim9_no_validation (s : VotingState) (text : String) (now : Nat) :
    (votingReducer now s (.addOption text)).options.getLast?
      = some { id := now, text := text, votes := 0 } ∧
    (votingReducer now s (.addOption "")).options.getLast?
      = some { id := now, text := "", votes := 0 } ∧
    (votingReducer now s (.addOption "")).options.length
      = s.options.length + 1 :=
  ⟨List.getLast?_concat s.options, List.getLast?_concat s.options,
   by simp [votingReducer]⟩

/-- C10: `Vote` with any id preserves the number of options and every
option's `id` and `text` in order; only `votes` fields and `totalVotes`
may change. -/
theorem claim10_vote_frame (s : VotingState) (vid now : Nat) :
    (votingReducer now s (.vote vid)).options.map Opt.id
      = s.options.map Opt.id ∧
    (votingReducer now s (.vote vid)).options.map Opt.text
      = s.options.map Opt.text ∧
    (votingReducer now s (.vote vid)).options.length = s.options.length := by
  refine ⟨?_, ?_, by simp [votingReducer]⟩
  · simp only [votingReducer, List.map_map]
    apply List.map_congr_left
    intro a _
    by_cases h : a.id = vid
    · simp [Function.comp, h]
    · simp [Function.comp, h]
  · simp only [votingReducer, List.map_map]
    apply List.map_congr_left
    intro a _
    by_cases h : a.id = vid
    · simp [Function.comp, h]
    · simp [Function.comp, h]

end Voting
